import Mathlib

/-!
Verification of the astor AST traversal engine (package astor).

The engine traverses a Go AST (go/ast), calling a user Visitor once per node
in pre-order, once more with a nil node after the children of a node have been
walked (the "closing call"), and installing replacement nodes requested via
Inspector.Replace into the parent's child slot.

The embedding follows the canonical engine of the repository:
  - Visitor, Inspector, NewInspector, inspectorImpl.Current,
    inspectorImpl.Replace, inspectorImpl.Visit, inspectorImpl.Inspect
    (file inspect.go); the dispatch switch of inspectorImpl.Inspect is
    line-for-line the same table as the free function Inspect of walk.go.
  - inspectIdentList, inspectExprList, inspectStmtList, inspectDeclList.

Go's ast.Node interface values are modelled by `Option Node` (none = nil);
the closed set of grammar variants is the inductive `Node` below, one
constructor per case of the dispatch switch, with the child fields of the
corresponding go/ast struct in declaration order.  Leaf data the engine never
inspects (token positions, operator tokens) is omitted; identifier names,
literal values and comment text are kept so trees are distinguishable.
go/ast.Package.Files is a map from file names to files; since the engine only
ranges over its values, it is modelled as the list of those values in stored
order.
-/

/-- One grammar variant per case of the dispatch switch of
inspectorImpl.Inspect (identical to the switch in walk.go), child fields in
the go/ast struct declaration order.  Optional children (nil-able pointers
guarded by nil checks in the source) are Option fields; ordered child lists
are List fields. -/
inductive Node where
  | comment (text : String)
  | commentGroup (list : List Node)
  | field (doc : Option Node) (names : List Node) (type_ : Node) (tag : Option Node) (comm : Option Node)
  | fieldList (list : List Node)
  | badExpr
  | ident (name : String)
  | basicLit (value : String)
  | ellipsis (elt : Option Node)
  | funcLit (ftype : Node) (body : Node)
  | compositeLit (ctype : Option Node) (elts : List Node)
  | parenExpr (x : Node)
  | selectorExpr (x : Node) (sel : Node)
  | indexExpr (x : Node) (index : Node)
  | sliceExpr (x : Node) (low : Option Node) (high : Option Node) (max : Option Node)
  | typeAssertExpr (x : Node) (ttype : Option Node)
  | callExpr (func : Node) (args : List Node)
  | starExpr (x : Node)
  | unaryExpr (x : Node)
  | binaryExpr (x : Node) (y : Node)
  | keyValueExpr (key : Node) (value : Node)
  | arrayType (len : Option Node) (elt : Node)
  | structType (fields : Node)
  | funcType (params : Option Node) (results : Option Node)
  | interfaceType (methods : Node)
  | mapType (key : Node) (value : Node)
  | chanType (value : Node)
  | badStmt
  | declStmt (decl : Node)
  | emptyStmt
  | labeledStmt (label : Node) (stmt : Node)
  | exprStmt (x : Node)
  | sendStmt (chan_ : Node) (value : Node)
  | incDecStmt (x : Node)
  | assignStmt (lhs : List Node) (rhs : List Node)
  | goStmt (call : Node)
  | deferStmt (call : Node)
  | returnStmt (results : List Node)
  | branchStmt (label : Option Node)
  | blockStmt (list : List Node)
  | ifStmt (init : Option Node) (cond : Node) (body : Node) (else_ : Option Node)
  | caseClause (list : List Node) (body : List Node)
  | switchStmt (init : Option Node) (tag : Option Node) (body : Node)
  | typeSwitchStmt (init : Option Node) (assign : Node) (body : Node)
  | commClause (comm : Option Node) (body : List Node)
  | selectStmt (body : Node)
  | forStmt (init : Option Node) (cond : Option Node) (post : Option Node) (body : Node)
  | rangeStmt (key : Option Node) (value : Option Node) (x : Node) (body : Node)
  | importSpec (doc : Option Node) (name : Option Node) (path : Node) (comm : Option Node)
  | valueSpec (doc : Option Node) (names : List Node) (vtype : Option Node) (values : List Node) (comm : Option Node)
  | typeSpec (doc : Option Node) (name : Node) (ttype : Node) (comm : Option Node)
  | badDecl
  | genDecl (doc : Option Node) (specs : List Node)
  | funcDecl (doc : Option Node) (recv : Option Node) (name : Node) (ftype : Node) (body : Option Node)
  | file (doc : Option Node) (name : Node) (decls : List Node) (comments : List Node)
  | package_ (files : List Node)

/-- Go interface ast.Expr: the variants implementing it (expressions and type
expressions), i.e. the variants a value type-asserted with .(ast.Expr) may
have. -/
def isExpr : Node → Bool
  | .badExpr | .ident _ | .basicLit _ | .ellipsis _ | .funcLit _ _
  | .compositeLit _ _ | .parenExpr _ | .selectorExpr _ _ | .indexExpr _ _
  | .sliceExpr _ _ _ _ | .typeAssertExpr _ _ | .callExpr _ _ | .starExpr _
  | .unaryExpr _ | .binaryExpr _ _ | .keyValueExpr _ _ | .arrayType _ _
  | .structType _ | .funcType _ _ | .interfaceType _ | .mapType _ _
  | .chanType _ => true
  | _ => false

/-- Go interface ast.Stmt. -/
def isStmt : Node → Bool
  | .badStmt | .declStmt _ | .emptyStmt | .labeledStmt _ _ | .exprStmt _
  | .sendStmt _ _ | .incDecStmt _ | .assignStmt _ _ | .goStmt _
  | .deferStmt _ | .returnStmt _ | .branchStmt _ | .blockStmt _
  | .ifStmt _ _ _ _ | .caseClause _ _ | .switchStmt _ _ _
  | .typeSwitchStmt _ _ _ | .commClause _ _ | .selectStmt _
  | .forStmt _ _ _ _ | .rangeStmt _ _ _ _ => true
  | _ => false

/-- Go interface ast.Decl. -/
def isDecl : Node → Bool
  | .badDecl | .genDecl _ _ | .funcDecl _ _ _ _ _ => true
  | _ => false

/-- Go interface ast.Spec. -/
def isSpec : Node → Bool
  | .importSpec _ _ _ _ | .valueSpec _ _ _ _ _ | .typeSpec _ _ _ _ => true
  | _ => false

/-- Concrete struct type *ast.Ident. -/
def isIdent : Node → Bool
  | .ident _ => true
  | _ => false

/-- Concrete struct type *ast.Comment. -/
def isComment : Node → Bool
  | .comment _ => true
  | _ => false

/-- Concrete struct type *ast.CommentGroup. -/
def isCommentGroup : Node → Bool
  | .commentGroup _ => true
  | _ => false

/-- Concrete struct type *ast.BasicLit. -/
def isBasicLit : Node → Bool
  | .basicLit _ => true
  | _ => false

/-- Concrete struct type *ast.Field. -/
def isField : Node → Bool
  | .field _ _ _ _ _ => true
  | _ => false

/-- Concrete struct type *ast.FieldList. -/
def isFieldList : Node → Bool
  | .fieldList _ => true
  | _ => false

/-- Concrete struct type *ast.FuncType. -/
def isFuncType : Node → Bool
  | .funcType _ _ => true
  | _ => false

/-- Concrete struct type *ast.BlockStmt. -/
def isBlockStmt : Node → Bool
  | .blockStmt _ => true
  | _ => false

/-- Concrete struct type *ast.CallExpr. -/
def isCallExpr : Node → Bool
  | .callExpr _ _ => true
  | _ => false

/-- Concrete struct type *ast.File. -/
def isFile : Node → Bool
  | .file _ _ _ _ => true
  | _ => false

/-- The declared child slots of a variant, in the order the dispatch switch
visits them (optional slots contribute nothing when absent).  For `file` the
Comments collection is deliberately NOT part of the child slots, mirroring
the source comment "don't inspect n.Comments - they have been visited already
through the individual nodes". -/
def children : Node → List Node
  | .comment _ => []
  | .commentGroup list => list
  | .field doc names type_ tag comm =>
      doc.toList ++ names ++ [type_] ++ tag.toList ++ comm.toList
  | .fieldList list => list
  | .badExpr => []
  | .ident _ => []
  | .basicLit _ => []
  | .ellipsis elt => elt.toList
  | .funcLit ftype body => [ftype, body]
  | .compositeLit ctype elts => ctype.toList ++ elts
  | .parenExpr x => [x]
  | .selectorExpr x sel => [x, sel]
  | .indexExpr x index => [x, index]
  | .sliceExpr x low high max => [x] ++ low.toList ++ high.toList ++ max.toList
  | .typeAssertExpr x ttype => [x] ++ ttype.toList
  | .callExpr func args => func :: args
  | .starExpr x => [x]
  | .unaryExpr x => [x]
  | .binaryExpr x y => [x, y]
  | .keyValueExpr key value => [key, value]
  | .arrayType len elt => len.toList ++ [elt]
  | .structType fields => [fields]
  | .funcType params results => params.toList ++ results.toList
  | .interfaceType methods => [methods]
  | .mapType key value => [key, value]
  | .chanType value => [value]
  | .badStmt => []
  | .declStmt decl => [decl]
  | .emptyStmt => []
  | .labeledStmt label stmt => [label, stmt]
  | .exprStmt x => [x]
  | .sendStmt chan_ value => [chan_, value]
  | .incDecStmt x => [x]
  | .assignStmt lhs rhs => lhs ++ rhs
  | .goStmt call => [call]
  | .deferStmt call => [call]
  | .returnStmt results => results
  | .branchStmt label => label.toList
  | .blockStmt list => list
  | .ifStmt init cond body else_ => init.toList ++ [cond, body] ++ else_.toList
  | .caseClause list body => list ++ body
  | .switchStmt init tag body => init.toList ++ tag.toList ++ [body]
  | .typeSwitchStmt init assign body => init.toList ++ [assign, body]
  | .commClause comm body => comm.toList ++ body
  | .selectStmt body => [body]
  | .forStmt init cond post body =>
      init.toList ++ cond.toList ++ post.toList ++ [body]
  | .rangeStmt key value x body => key.toList ++ value.toList ++ [x, body]
  | .importSpec doc name path comm =>
      doc.toList ++ name.toList ++ [path] ++ comm.toList
  | .valueSpec doc names vtype values comm =>
      doc.toList ++ names ++ vtype.toList ++ values ++ comm.toList
  | .typeSpec doc name ttype comm => doc.toList ++ [name, ttype] ++ comm.toList
  | .badDecl => []
  | .genDecl doc specs => doc.toList ++ specs
  | .funcDecl doc recv name ftype body =>
      doc.toList ++ recv.toList ++ [name, ftype] ++ body.toList
  | .file doc name decls _ => doc.toList ++ [name] ++ decls
  | .package_ files => files

/-- One level of Go's static field typing: each child slot of the variant is
occupied by a node of the slot's static type (the interface or struct type the
dispatch switch re-asserts with .(T) after inspecting the slot).  A tree
produced by the go/ast parser satisfies this at every node. -/
def slotOK : Node → Bool
  | .comment _ => true
  | .commentGroup list => list.all isComment
  | .field doc names type_ tag comm =>
      doc.all isCommentGroup && names.all isIdent && isExpr type_ &&
        tag.all isBasicLit && comm.all isCommentGroup
  | .fieldList list => list.all isField
  | .badExpr => true
  | .ident _ => true
  | .basicLit _ => true
  | .ellipsis elt => elt.all isExpr
  | .funcLit ftype body => isFuncType ftype && isBlockStmt body
  | .compositeLit ctype elts => ctype.all isExpr && elts.all isExpr
  | .parenExpr x => isExpr x
  | .selectorExpr x sel => isExpr x && isIdent sel
  | .indexExpr x index => isExpr x && isExpr index
  | .sliceExpr x low high max =>
      isExpr x && low.all isExpr && high.all isExpr && max.all isExpr
  | .typeAssertExpr x ttype => isExpr x && ttype.all isExpr
  | .callExpr func args => isExpr func && args.all isExpr
  | .starExpr x => isExpr x
  | .unaryExpr x => isExpr x
  | .binaryExpr x y => isExpr x && isExpr y
  | .keyValueExpr key value => isExpr key && isExpr value
  | .arrayType len elt => len.all isExpr && isExpr elt
  | .structType fields => isFieldList fields
  | .funcType params results => params.all isFieldList && results.all isFieldList
  | .interfaceType methods => isFieldList methods
  | .mapType key value => isExpr key && isExpr value
  | .chanType value => isExpr value
  | .badStmt => true
  | .declStmt decl => isDecl decl
  | .emptyStmt => true
  | .labeledStmt label stmt => isIdent label && isStmt stmt
  | .exprStmt x => isExpr x
  | .sendStmt chan_ value => isExpr chan_ && isExpr value
  | .incDecStmt x => isExpr x
  | .assignStmt lhs rhs => lhs.all isExpr && rhs.all isExpr
  | .goStmt call => isCallExpr call
  | .deferStmt call => isCallExpr call
  | .returnStmt results => results.all isExpr
  | .branchStmt label => label.all isIdent
  | .blockStmt list => list.all isStmt
  | .ifStmt init cond body else_ =>
      init.all isStmt && isExpr cond && isBlockStmt body && else_.all isStmt
  | .caseClause list body => list.all isExpr && body.all isStmt
  | .switchStmt init tag body =>
      init.all isStmt && tag.all isExpr && isBlockStmt body
  | .typeSwitchStmt init assign body =>
      init.all isStmt && isStmt assign && isBlockStmt body
  | .commClause comm body => comm.all isStmt && body.all isStmt
  | .selectStmt body => isBlockStmt body
  | .forStmt init cond post body =>
      init.all isStmt && cond.all isExpr && post.all isStmt && isBlockStmt body
  | .rangeStmt key value x body =>
      key.all isExpr && value.all isExpr && isExpr x && isBlockStmt body
  | .importSpec doc name path comm =>
      doc.all isCommentGroup && name.all isIdent && isBasicLit path &&
        comm.all isCommentGroup
  | .valueSpec doc names vtype values comm =>
      doc.all isCommentGroup && names.all isIdent && vtype.all isExpr &&
        values.all isExpr && comm.all isCommentGroup
  | .typeSpec doc name ttype comm =>
      doc.all isCommentGroup && isIdent name && isExpr ttype &&
        comm.all isCommentGroup
  | .badDecl => true
  | .genDecl doc specs => doc.all isCommentGroup && specs.all isSpec
  | .funcDecl doc recv name ftype body =>
      doc.all isCommentGroup && recv.all isFieldList && isIdent name &&
        isFuncType ftype && body.all isBlockStmt
  | .file doc name decls _ =>
      doc.all isCommentGroup && isIdent name && decls.all isDecl
  | .package_ files => files.all isFile

/-- Ways the Go engine can abort: the panic of the dispatch switch's default
case (unknown variant, including a nil node reaching the switch), the panic of
a failed .(T) type assertion on an inspection result, and exhaustion of the
explicit recursion-depth fuel the embedding adds (Go's recursion is unbounded;
every theorem below either supplies enough fuel or is conditional on the run
not running out). -/
inductive Failure where
  | unknownVariant
  | assertFailed
  | outOfFuel
deriving DecidableEq

/-- Ghost log entry for one call of inspectorImpl.Visit: the node argument the
visitor callback was invoked with (none models the Go nil used for the closing
call) and the recurse Bool the callback returned. -/
abbrev Event := Option Node × Bool

/-- The mutable state of an inspectorImpl together with the visitor closure's
own state: `node` is the cursor field (the node currently being inspected,
read by Current and written by Replace), `vs` is the state of the user's
visitor closure. -/
structure St (σ : Type) where
  node : Option Node
  vs : σ

/-- Outcome of running an engine computation from a state: a value, final
state, and the ghost log of visitor invocations, or a Go panic (Failure) with
no observable result. -/
inductive Res (σ : Type) (α : Type) where
  | ok (a : α) (st : St σ) (tr : List Event)
  | err (e : Failure) (tr : List Event)

/-- Engine computations: state transformers that can panic and log visitor
invocations. -/
def M (σ : Type) (α : Type) : Type := St σ → Res σ α

/-- Sequencing of engine computations, threading the state and concatenating
the ghost logs. -/
def M.bind (x : M σ α) (f : α → M σ β) : M σ β := fun st =>
  match x st with
  | .ok a st' t₁ =>
    match f a st' with
    | .ok b st'' t₂ => .ok b st'' (t₁ ++ t₂)
    | .err e t₂ => .err e (t₁ ++ t₂)
  | .err e t₁ => .err e t₁

/-- The computation that returns a value without touching the state. -/
def M.pure (a : α) : M σ α := fun st => .ok a st []

instance : Monad (M σ) where
  pure := M.pure
  bind := M.bind

theorem M.bind_eq (x : M σ α) (f : α → M σ β) : x >>= f = M.bind x f := rfl

theorem M.pure_eq (a : α) : (Pure.pure a : M σ α) = M.pure a := rfl

/-- Go type Visitor, func(i Inspector, node ast.Node) (recurse bool), as the
observable effect of one callback invocation: given the visitor closure's
state and the inspector cursor at entry (which Visit has just set to the
presented node), it yields the new closure state, the cursor value at return
(the last node passed to Replace, or the presented node when Replace is never
called), and the recurse flag it returns. -/
def Visitor (σ : Type) : Type := σ → Option Node → σ × Option Node × Bool

/-- inspectorImpl.Visit (inspect.go): i.node = n; result := i.visitorImpl(i, n);
replacement := i.node; i.node = nil; return (replacement, i or nil).  The
mutex only serializes this critical section and has no observable effect in a
single sequential traversal, so it is not modelled.  The returned pair is
(replacement, result); the ghost log records the invocation. -/
def Visit (v : Visitor σ) (n : Option Node) : M σ (Option Node × Bool) :=
  fun st =>
    let st₁ : St σ := { st with node := n }
    let (vs', cursor', result) := v st.vs st₁.node
    Res.ok (cursor', result) { node := none, vs := vs' } [(st₁.node, result)]

/-- A Go type assertion r.(T) on an inspection result: yields the node when it
is of the asserted type, panics otherwise (also when r is nil). -/
def typeAssert (p : Node → Bool) (n : Option Node) : M σ Node := fun st =>
  match n with
  | some m => if p m then .ok m st [] else .err .assertFailed []
  | none => .err .assertFailed []

/-- One child-slot update of the dispatch switch: slot = i.Inspect(slot).(T).
The parameter `i` is the recursive inspection (the Inspector the switch calls
back into). -/
def inspectSlot (p : Node → Bool) (i : Node → M σ (Option Node)) (c : Node) :
    M σ Node := do
  let r ← i c
  typeAssert p r

/-- An optional child-slot update: if slot != nil, slot = i.Inspect(slot).(T). -/
def inspectOptional (p : Node → Bool) (i : Node → M σ (Option Node))
    (o : Option Node) : M σ (Option Node) :=
  match o with
  | none => M.pure none
  | some c => do
    let c' ← inspectSlot p i c
    pure (some c')

/-- A child-list walk, newList[l] = i.Inspect(list[l]).(T) for each l in
order: the common body of the four named list helpers and of the inline
range loops of the dispatch switch (CommentGroup.List, FieldList.List,
GenDecl.Specs, Package.Files), which differ only in the asserted type. -/
def inspectNodeList (p : Node → Bool) (i : Node → M σ (Option Node)) :
    List Node → M σ (List Node)
  | [] => M.pure []
  | x :: xs => do
    let x' ← inspectSlot p i x
    let xs' ← inspectNodeList p i xs
    pure (x' :: xs')

/-- inspectIdentList (inspect.go). -/
def inspectIdentList (i : Node → M σ (Option Node)) (list : List Node) :
    M σ (List Node) :=
  inspectNodeList isIdent i list

/-- inspectExprList (inspect.go). -/
def inspectExprList (i : Node → M σ (Option Node)) (list : List Node) :
    M σ (List Node) :=
  inspectNodeList isExpr i list

/-- inspectStmtList (inspect.go). -/
def inspectStmtList (i : Node → M σ (Option Node)) (list : List Node) :
    M σ (List Node) :=
  inspectNodeList isStmt i list

/-- inspectDeclList (inspect.go). -/
def inspectDeclList (i : Node → M σ (Option Node)) (list : List Node) :
    M σ (List Node) :=
  inspectNodeList isDecl i list

/-- The child-recursion switch of inspectorImpl.Inspect (inspect.go; the same
table appears in walk.go): given the node the initial Visit returned (the
replacement), dispatch on its runtime variant and re-assign every declared
child field, in order, with the type-asserted result of the recursive
inspection `i` of that field; unknown variants (in this closed model, only a
nil node, `none`) hit the default case and panic.  Case order and field order
follow the source. -/
def inspectChildren (i : Node → M σ (Option Node)) :
    Option Node → M σ (Option Node)
  | some (.comment text) =>
    -- nothing to do
    M.pure (some (.comment text))
  | some (.commentGroup list) => do
    let list' ← inspectNodeList isComment i list
    pure (some (.commentGroup list'))
  | some (.field doc names type_ tag comm) => do
    let doc' ← inspectOptional isCommentGroup i doc
    let names' ← inspectIdentList i names
    let type' ← inspectSlot isExpr i type_
    let tag' ← inspectOptional isBasicLit i tag
    let comm' ← inspectOptional isCommentGroup i comm
    pure (some (.field doc' names' type' tag' comm'))
  | some (.fieldList list) => do
    let list' ← inspectNodeList isField i list
    pure (some (.fieldList list'))
  | some .badExpr =>
    -- nothing to do
    M.pure (some .badExpr)
  | some (.ident name) =>
    -- nothing to do
    M.pure (some (.ident name))
  | some (.basicLit value) =>
    -- nothing to do
    M.pure (some (.basicLit value))
  | some (.ellipsis elt) => do
    let elt' ← inspectOptional isExpr i elt
    pure (some (.ellipsis elt'))
  | some (.funcLit ftype body) => do
    let ftype' ← inspectSlot isFuncType i ftype
    let body' ← inspectSlot isBlockStmt i body
    pure (some (.funcLit ftype' body'))
  | some (.compositeLit ctype elts) => do
    let ctype' ← inspectOptional isExpr i ctype
    let elts' ← inspectExprList i elts
    pure (some (.compositeLit ctype' elts'))
  | some (.parenExpr x) => do
    let x' ← inspectSlot isExpr i x
    pure (some (.parenExpr x'))
  | some (.selectorExpr x sel) => do
    let x' ← inspectSlot isExpr i x
    let sel' ← inspectSlot isIdent i sel
    pure (some (.selectorExpr x' sel'))
  | some (.indexExpr x index) => do
    let x' ← inspectSlot isExpr i x
    let index' ← inspectSlot isExpr i index
    pure (some (.indexExpr x' index'))
  | some (.sliceExpr x low high max) => do
    let x' ← inspectSlot isExpr i x
    let low' ← inspectOptional isExpr i low
    let high' ← inspectOptional isExpr i high
    let max' ← inspectOptional isExpr i max
    pure (some (.sliceExpr x' low' high' max'))
  | some (.typeAssertExpr x ttype) => do
    let x' ← inspectSlot isExpr i x
    let ttype' ← inspectOptional isExpr i ttype
    pure (some (.typeAssertExpr x' ttype'))
  | some (.callExpr func args) => do
    let func' ← inspectSlot isExpr i func
    let args' ← inspectExprList i args
    pure (some (.callExpr func' args'))
  | some (.starExpr x) => do
    let x' ← inspectSlot isExpr i x
    pure (some (.starExpr x'))
  | some (.unaryExpr x) => do
    let x' ← inspectSlot isExpr i x
    pure (some (.unaryExpr x'))
  | some (.binaryExpr x y) => do
    let x' ← inspectSlot isExpr i x
    let y' ← inspectSlot isExpr i y
    pure (some (.binaryExpr x' y'))
  | some (.keyValueExpr key value) => do
    let key' ← inspectSlot isExpr i key
    let value' ← inspectSlot isExpr i value
    pure (some (.keyValueExpr key' value'))
  | some (.arrayType len elt) => do
    let len' ← inspectOptional isExpr i len
    let elt' ← inspectSlot isExpr i elt
    pure (some (.arrayType len' elt'))
  | some (.structType fields) => do
    let fields' ← inspectSlot isFieldList i fields
    pure (some (.structType fields'))
  | some (.funcType params results) => do
    let params' ← inspectOptional isFieldList i params
    let results' ← inspectOptional isFieldList i results
    pure (some (.funcType params' results'))
  | some (.interfaceType methods) => do
    let methods' ← inspectSlot isFieldList i methods
    pure (some (.interfaceType methods'))
  | some (.mapType key value) => do
    let key' ← inspectSlot isExpr i key
    let value' ← inspectSlot isExpr i value
    pure (some (.mapType key' value'))
  | some (.chanType value) => do
    let value' ← inspectSlot isExpr i value
    pure (some (.chanType value'))
  | some .badStmt =>
    -- nothing to do
    M.pure (some .badStmt)
  | some (.declStmt decl) => do
    let decl' ← inspectSlot isDecl i decl
    pure (some (.declStmt decl'))
  | some .emptyStmt =>
    -- nothing to do
    M.pure (some .emptyStmt)
  | some (.labeledStmt label stmt) => do
    let label' ← inspectSlot isIdent i label
    let stmt' ← inspectSlot isStmt i stmt
    pure (some (.labeledStmt label' stmt'))
  | some (.exprStmt x) => do
    let x' ← inspectSlot isExpr i x
    pure (some (.exprStmt x'))
  | some (.sendStmt chan_ value) => do
    let chan' ← inspectSlot isExpr i chan_
    let value' ← inspectSlot isExpr i value
    pure (some (.sendStmt chan' value'))
  | some (.incDecStmt x) => do
    let x' ← inspectSlot isExpr i x
    pure (some (.incDecStmt x'))
  | some (.assignStmt lhs rhs) => do
    let lhs' ← inspectExprList i lhs
    let rhs' ← inspectExprList i rhs
    pure (some (.assignStmt lhs' rhs'))
  | some (.goStmt call) => do
    let call' ← inspectSlot isCallExpr i call
    pure (some (.goStmt call'))
  | some (.deferStmt call) => do
    let call' ← inspectSlot isCallExpr i call
    pure (some (.deferStmt call'))
  | some (.returnStmt results) => do
    let results' ← inspectExprList i results
    pure (some (.returnStmt results'))
  | some (.branchStmt label) => do
    let label' ← inspectOptional isIdent i label
    pure (some (.branchStmt label'))
  | some (.blockStmt list) => do
    let list' ← inspectStmtList i list
    pure (some (.blockStmt list'))
  | some (.ifStmt init cond body else_) => do
    let init' ← inspectOptional isStmt i init
    let cond' ← inspectSlot isExpr i cond
    let body' ← inspectSlot isBlockStmt i body
    let else' ← inspectOptional isStmt i else_
    pure (some (.ifStmt init' cond' body' else'))
  | some (.caseClause list body) => do
    let list' ← inspectExprList i list
    let body' ← inspectStmtList i body
    pure (some (.caseClause list' body'))
  | some (.switchStmt init tag body) => do
    let init' ← inspectOptional isStmt i init
    let tag' ← inspectOptional isExpr i tag
    let body' ← inspectSlot isBlockStmt i body
    pure (some (.switchStmt init' tag' body'))
  | some (.typeSwitchStmt init assign body) => do
    let init' ← inspectOptional isStmt i init
    let assign' ← inspectSlot isStmt i assign
    let body' ← inspectSlot isBlockStmt i body
    pure (some (.typeSwitchStmt init' assign' body'))
  | some (.commClause comm body) => do
    let comm' ← inspectOptional isStmt i comm
    let body' ← inspectStmtList i body
    pure (some (.commClause comm' body'))
  | some (.selectStmt body) => do
    let body' ← inspectSlot isBlockStmt i body
    pure (some (.selectStmt body'))
  | some (.forStmt init cond post body) => do
    let init' ← inspectOptional isStmt i init
    let cond' ← inspectOptional isExpr i cond
    let post' ← inspectOptional isStmt i post
    let body' ← inspectSlot isBlockStmt i body
    pure (some (.forStmt init' cond' post' body'))
  | some (.rangeStmt key value x body) => do
    let key' ← inspectOptional isExpr i key
    let value' ← inspectOptional isExpr i value
    let x' ← inspectSlot isExpr i x
    let body' ← inspectSlot isBlockStmt i body
    pure (some (.rangeStmt key' value' x' body'))
  | some (.importSpec doc name path comm) => do
    let doc' ← inspectOptional isCommentGroup i doc
    let name' ← inspectOptional isIdent i name
    let path' ← inspectSlot isBasicLit i path
    let comm' ← inspectOptional isCommentGroup i comm
    pure (some (.importSpec doc' name' path' comm'))
  | some (.valueSpec doc names vtype values comm) => do
    let doc' ← inspectOptional isCommentGroup i doc
    let names' ← inspectIdentList i names
    let vtype' ← inspectOptional isExpr i vtype
    let values' ← inspectExprList i values
    let comm' ← inspectOptional isCommentGroup i comm
    pure (some (.valueSpec doc' names' vtype' values' comm'))
  | some (.typeSpec doc name ttype comm) => do
    let doc' ← inspectOptional isCommentGroup i doc
    let name' ← inspectSlot isIdent i name
    let ttype' ← inspectSlot isExpr i ttype
    let comm' ← inspectOptional isCommentGroup i comm
    pure (some (.typeSpec doc' name' ttype' comm'))
  | some .badDecl =>
    -- nothing to do
    M.pure (some .badDecl)
  | some (.genDecl doc specs) => do
    let doc' ← inspectOptional isCommentGroup i doc
    let specs' ← inspectNodeList isSpec i specs
    pure (some (.genDecl doc' specs'))
  | some (.funcDecl doc recv name ftype body) => do
    let doc' ← inspectOptional isCommentGroup i doc
    let recv' ← inspectOptional isFieldList i recv
    let name' ← inspectSlot isIdent i name
    let ftype' ← inspectSlot isFuncType i ftype
    let body' ← inspectOptional isBlockStmt i body
    pure (some (.funcDecl doc' recv' name' ftype' body'))
  | some (.file doc name decls comments) => do
    let doc' ← inspectOptional isCommentGroup i doc
    let name' ← inspectSlot isIdent i name
    let decls' ← inspectDeclList i decls
    -- don't inspect n.Comments - they have been visited already through the
    -- individual nodes
    pure (some (.file doc' name' decls' comments))
  | some (.package_ files) => do
    let files' ← inspectNodeList isFile i files
    pure (some (.package_ files'))
  | none =>
    -- default: fmt.Printf("astor.Inspect: unexpected node type %T", n);
    -- panic("astor.Inspect").  A nil node is the one value of the model
    -- outside the enumerated grammar variants.
    fun _ => .err .unknownVariant []

/-- inspectorImpl.Inspect (inspect.go): Visit the node; if the visitor
declined recursion return the replacement at once (no closing call);
otherwise dispatch on the replacement's variant, walk its children, issue the
closing call Visit(nil) discarding its result, and return the node.  The Go
recursion is unbounded; the embedding spends one unit of fuel per level. -/
def Inspect (v : Visitor σ) : Nat → Option Node → M σ (Option Node)
  | 0, _ => fun _ => .err .outOfFuel []
  | fuel + 1, node => do
    let (node', recurse) ← Visit v node
    if recurse then do
      let node'' ← inspectChildren (fun c => Inspect v fuel (some c)) node'
      let _ ← Visit v none
      pure node''
    else
      pure node'


mutual

/-- Executable size of a tree (the automatically derived SizeOf instance of
the nested inductive carries no executable code); used to bound the fuel a
traversal needs. -/
def nsize : Node → Nat
  | .comment _ => 1
  | .commentGroup list => 1 + nsizeList list
  | .field doc names type_ tag comm =>
      1 + nsizeOpt doc + nsizeList names + nsize type_ + nsizeOpt tag + nsizeOpt comm
  | .fieldList list => 1 + nsizeList list
  | .badExpr => 1
  | .ident _ => 1
  | .basicLit _ => 1
  | .ellipsis elt => 1 + nsizeOpt elt
  | .funcLit ftype body => 1 + nsize ftype + nsize body
  | .compositeLit ctype elts => 1 + nsizeOpt ctype + nsizeList elts
  | .parenExpr x => 1 + nsize x
  | .selectorExpr x sel => 1 + nsize x + nsize sel
  | .indexExpr x index => 1 + nsize x + nsize index
  | .sliceExpr x low high max =>
      1 + nsize x + nsizeOpt low + nsizeOpt high + nsizeOpt max
  | .typeAssertExpr x ttype => 1 + nsize x + nsizeOpt ttype
  | .callExpr func args => 1 + nsize func + nsizeList args
  | .starExpr x => 1 + nsize x
  | .unaryExpr x => 1 + nsize x
  | .binaryExpr x y => 1 + nsize x + nsize y
  | .keyValueExpr key value => 1 + nsize key + nsize value
  | .arrayType len elt => 1 + nsizeOpt len + nsize elt
  | .structType fields => 1 + nsize fields
  | .funcType params results => 1 + nsizeOpt params + nsizeOpt results
  | .interfaceType methods => 1 + nsize methods
  | .mapType key value => 1 + nsize key + nsize value
  | .chanType value => 1 + nsize value
  | .badStmt => 1
  | .declStmt decl => 1 + nsize decl
  | .emptyStmt => 1
  | .labeledStmt label stmt => 1 + nsize label + nsize stmt
  | .exprStmt x => 1 + nsize x
  | .sendStmt chan_ value => 1 + nsize chan_ + nsize value
  | .incDecStmt x => 1 + nsize x
  | .assignStmt lhs rhs => 1 + nsizeList lhs + nsizeList rhs
  | .goStmt call => 1 + nsize call
  | .deferStmt call => 1 + nsize call
  | .returnStmt results => 1 + nsizeList results
  | .branchStmt label => 1 + nsizeOpt label
  | .blockStmt list => 1 + nsizeList list
  | .ifStmt init cond body else_ =>
      1 + nsizeOpt init + nsize cond + nsize body + nsizeOpt else_
  | .caseClause list body => 1 + nsizeList list + nsizeList body
  | .switchStmt init tag body => 1 + nsizeOpt init + nsizeOpt tag + nsize body
  | .typeSwitchStmt init assign body =>
      1 + nsizeOpt init + nsize assign + nsize body
  | .commClause comm body => 1 + nsizeOpt comm + nsizeList body
  | .selectStmt body => 1 + nsize body
  | .forStmt init cond post body =>
      1 + nsizeOpt init + nsizeOpt cond + nsizeOpt post + nsize body
  | .rangeStmt key value x body =>
      1 + nsizeOpt key + nsizeOpt value + nsize x + nsize body
  | .importSpec doc name path comm =>
      1 + nsizeOpt doc + nsizeOpt name + nsize path + nsizeOpt comm
  | .valueSpec doc names vtype values comm =>
      1 + nsizeOpt doc + nsizeList names + nsizeOpt vtype + nsizeList values + nsizeOpt comm
  | .typeSpec doc name ttype comm =>
      1 + nsizeOpt doc + nsize name + nsize ttype + nsizeOpt comm
  | .badDecl => 1
  | .genDecl doc specs => 1 + nsizeOpt doc + nsizeList specs
  | .funcDecl doc recv name ftype body =>
      1 + nsizeOpt doc + nsizeOpt recv + nsize name + nsize ftype + nsizeOpt body
  | .file doc name decls comments =>
      1 + nsizeOpt doc + nsize name + nsizeList decls + nsizeList comments
  | .package_ files => 1 + nsizeList files

/-- Sum of the sizes of the nodes of a list. -/
def nsizeList : List Node → Nat
  | [] => 0
  | x :: xs => nsize x + nsizeList xs

/-- Size of an optional node. -/
def nsizeOpt : Option Node → Nat
  | none => 0
  | some x => nsize x

end

theorem nsize_pos (n : Node) : 0 < nsize n := by
  cases n <;> simp only [nsize] <;> omega

theorem nsizeList_le {l : List Node} {c : Node} (hc : c ∈ l) :
    nsize c ≤ nsizeList l := by
  induction l with
  | nil => cases hc
  | cons x xs ih =>
    rcases List.mem_cons.mp hc with h | h
    · subst h
      simp only [nsizeList]
      omega
    · have := ih h
      simp only [nsizeList]
      omega

theorem nsizeList_append (a b : List Node) :
    nsizeList (a ++ b) = nsizeList a + nsizeList b := by
  induction a with
  | nil => simp [nsizeList]
  | cons x xs ih =>
    simp only [List.cons_append, nsizeList, List.append_eq, ih]
    omega

theorem nsizeList_toList (o : Option Node) : nsizeList o.toList = nsizeOpt o := by
  cases o <;> simp [Option.toList, nsizeList, nsizeOpt]

theorem nsizeList_children_lt (n : Node) : nsizeList (children n) < nsize n := by
  cases n <;>
    simp only [children, nsize, List.append_eq, List.nil_append,
      List.cons_append, List.singleton_append, nsizeList_append,
      nsizeList_toList, nsizeList, nsizeOpt] <;>
    omega

theorem nsize_lt_of_mem_children {n c : Node} (hc : c ∈ children n) :
    nsize c < nsize n :=
  lt_of_le_of_lt (nsizeList_le hc) (nsizeList_children_lt n)

/-- Document order, fuelled: the node itself followed by the document-order
listings of its declared child slots, left to right. -/
def docOrderF : Nat → Node → List Node
  | 0, _ => []
  | f + 1, n => n :: (children n).flatMap (docOrderF f)

/-- Document order of the subtree rooted at a node: the node, then the
document orders of its declared child slots left to right.  This is the
spec's reading of "the nodes reachable via declared child fields from the
root, in document (left-to-right, depth-first) order"; each occurrence of a
node in the tree is listed exactly once, and a file's attached comment
collection is not a declared child slot (see `children`). -/
def docOrder (n : Node) : List Node :=
  docOrderF (nsize n) n

/-- Fuelled form of the well-bracketed visitor-call log an always-continue,
never-replacing visitor generates on a subtree. -/
def bracketF : Nat → Node → List Event
  | 0, _ => []
  | f + 1, n =>
    (some n, true) :: ((children n).flatMap (bracketF f) ++ [(none, true)])

/-- The visitor-call log on the subtree rooted at a node under an
always-continue, never-replacing visitor: the pre-order call for the node,
the children's logs in order, then the single closing call (nil node). -/
def bracket (n : Node) : List Event :=
  bracketF (nsize n) n

/-- Fuelled form of static well-typedness. -/
def wfF : Nat → Node → Bool
  | 0, _ => false
  | f + 1, n => slotOK n && (children n).all (wfF f)

/-- Static well-typedness of the subtree rooted at a node: every node of the
subtree fills each child slot with a node of the slot's static Go type
(`slotOK`).  Trees built by the go/ast parser are of this shape by
construction; the embedding needs it because the single Lean type `Node`
erases Go's static field types. -/
def wf (n : Node) : Bool :=
  wfF (nsize n) n

theorem all_congr' {l : List Node} {p q : Node → Bool}
    (h : ∀ c ∈ l, p c = q c) : l.all p = l.all q := by
  induction l with
  | nil => rfl
  | cons x xs ih =>
    simp only [List.all_cons]
    rw [h x (by simp), ih (fun c hc => h c (by simp [hc]))]

theorem docOrderF_fuel : ∀ (f g : Nat) (n : Node), nsize n ≤ f →
    nsize n ≤ g → docOrderF f n = docOrderF g n := by
  intro f
  induction f with
  | zero =>
    intro g n hf _
    have := nsize_pos n
    omega
  | succ f' ih =>
    intro g n hf hg
    have hpos := nsize_pos n
    rcases g with _ | g'
    · omega
    simp only [docOrderF, List.cons.injEq, true_and]
    refine List.flatMap_congr ?_
    intro c hc
    have hlt := nsize_lt_of_mem_children hc
    exact ih g' c (by omega) (by omega)

theorem docOrder_eq (n : Node) :
    docOrder n = n :: (children n).flatMap docOrder := by
  have hpos := nsize_pos n
  obtain ⟨k, hk⟩ : ∃ k, nsize n = k + 1 := ⟨nsize n - 1, by omega⟩
  simp only [docOrder, hk, docOrderF, List.cons.injEq, true_and]
  refine List.flatMap_congr ?_
  intro c hc
  have hlt := nsize_lt_of_mem_children hc
  exact docOrderF_fuel k (nsize c) c (by omega) (by omega)

theorem bracketF_fuel : ∀ (f g : Nat) (n : Node), nsize n ≤ f →
    nsize n ≤ g → bracketF f n = bracketF g n := by
  intro f
  induction f with
  | zero =>
    intro g n hf _
    have := nsize_pos n
    omega
  | succ f' ih =>
    intro g n hf hg
    have hpos := nsize_pos n
    rcases g with _ | g'
    · omega
    simp only [bracketF, List.cons.injEq, true_and]
    congr 1
    refine List.flatMap_congr ?_
    intro c hc
    have hlt := nsize_lt_of_mem_children hc
    exact ih g' c (by omega) (by omega)

theorem bracket_eq (n : Node) :
    bracket n = (some n, true) :: ((children n).flatMap bracket ++ [(none, true)]) := by
  have hpos := nsize_pos n
  obtain ⟨k, hk⟩ : ∃ k, nsize n = k + 1 := ⟨nsize n - 1, by omega⟩
  simp only [bracket, hk, bracketF, List.cons.injEq, true_and]
  congr 1
  refine List.flatMap_congr ?_
  intro c hc
  have hlt := nsize_lt_of_mem_children hc
  exact bracketF_fuel k (nsize c) c (by omega) (by omega)

theorem wfF_fuel : ∀ (f g : Nat) (n : Node), nsize n ≤ f → nsize n ≤ g →
    wfF f n = wfF g n := by
  intro f
  induction f with
  | zero =>
    intro g n hf _
    have := nsize_pos n
    omega
  | succ f' ih =>
    intro g n hf hg
    have hpos := nsize_pos n
    rcases g with _ | g'
    · omega
    simp only [wfF]
    have heq : (children n).all (wfF f') = (children n).all (wfF g') := by
      refine all_congr' ?_
      intro c hc
      have hlt := nsize_lt_of_mem_children hc
      exact ih g' c (by omega) (by omega)
    rw [heq]

theorem wf_eq (n : Node) : wf n = (slotOK n && (children n).all wf) := by
  have hpos := nsize_pos n
  obtain ⟨k, hk⟩ : ∃ k, nsize n = k + 1 := ⟨nsize n - 1, by omega⟩
  simp only [wf, hk, wfF]
  have heq : (children n).all (wfF k) = (children n).all wf := by
    refine all_congr' ?_
    intro c hc
    have hlt := nsize_lt_of_mem_children hc
    exact wfF_fuel k (nsize c) c (by omega) (by omega)
  rw [heq]

theorem wf_slotOK {n : Node} (h : wf n = true) : slotOK n = true := by
  rw [wf_eq] at h
  simp only [Bool.and_eq_true] at h
  exact h.1

theorem wf_child {n c : Node} (h : wf n = true) (hc : c ∈ children n) :
    wf c = true := by
  rw [wf_eq] at h
  simp only [Bool.and_eq_true] at h
  exact List.all_eq_true.mp h.2 c hc

/-- The computation x, run from any state, succeeds with value a and logs
exactly the events t (the final state is existential: it carries the visitor
closure's state, which evolves). -/
def OkSpec (x : M σ α) (a : α) (t : List Event) : Prop :=
  ∀ st, ∃ st', x st = .ok a st' t

theorem bindOk {x : M σ α} {f : α → M σ β} {a : α} {b : β}
    {t₁ t₂ : List Event} (hx : OkSpec x a t₁) (hf : OkSpec (f a) b t₂) :
    OkSpec (x >>= f) b (t₁ ++ t₂) := by
  intro st
  obtain ⟨st₁, hx1⟩ := hx st
  obtain ⟨st₂, hf1⟩ := hf st₁
  exact ⟨st₂, by simp [M.bind_eq, M.bind, hx1, hf1]⟩

theorem pureOk (a : α) : OkSpec (Pure.pure a : M σ α) a [] :=
  fun st => ⟨st, rfl⟩

theorem okCongr {x : M σ α} {a a' : α} {t t' : List Event}
    (h : OkSpec x a t) (ha : a = a') (ht : t = t') : OkSpec x a' t' := by
  subst ha
  subst ht
  exact h

theorem typeAssertOk {p : Node → Bool} {c : Node} (hp : p c = true) :
    OkSpec (σ := σ) (typeAssert p (some c)) c [] :=
  fun st => ⟨st, by simp [typeAssert, hp]⟩

/-- The recursive inspection `i` acts on node c as the identity walk: from
any state it succeeds, returns c unchanged, and logs exactly the bracketed
call sequence of c's subtree.  This is how `Inspect` behaves on well-typed
subtrees under an always-continue, never-replacing visitor. -/
def IdWalk (i : Node → M σ (Option Node)) (c : Node) : Prop :=
  OkSpec (i c) (some c) (bracket c)

theorem inspectSlotOk {p : Node → Bool} {i : Node → M σ (Option Node)}
    {c : Node} (hi : IdWalk i c) (hp : p c = true) :
    OkSpec (inspectSlot p i c) c (bracket c) := by
  simp only [inspectSlot]
  exact okCongr (bindOk hi (typeAssertOk hp)) rfl (by simp)

theorem inspectOptionalOk {p : Node → Bool} {i : Node → M σ (Option Node)}
    {o : Option Node} (hi : ∀ d, o = some d → IdWalk i d)
    (hp : o.all p = true) :
    OkSpec (inspectOptional p i o) o (o.toList.flatMap bracket) := by
  cases o with
  | none => exact fun st => ⟨st, rfl⟩
  | some d =>
    simp only [inspectOptional]
    refine okCongr (bindOk (inspectSlotOk (hi d rfl) ?_) (pureOk _)) rfl
      (by simp)
    simpa [Option.all_some] using hp

theorem inspectNodeListOk {p : Node → Bool} {i : Node → M σ (Option Node)} :
    ∀ {l : List Node}, (∀ c ∈ l, IdWalk i c) → l.all p = true →
      OkSpec (inspectNodeList p i l) l (l.flatMap bracket) := by
  intro l
  induction l with
  | nil => exact fun _ _ st => ⟨st, rfl⟩
  | cons x xs ih =>
    intro hi hp
    simp only [List.all_cons, Bool.and_eq_true] at hp
    simp only [inspectNodeList]
    refine okCongr (bindOk (inspectSlotOk (hi x (by simp)) hp.1)
      (bindOk (ih (fun c hc => hi c (by simp [hc])) hp.2)
        (pureOk (x :: xs)))) rfl (by simp)

theorem inspectChildrenOk {i : Node → M σ (Option Node)} {n : Node}
    (hi : ∀ c ∈ children n, IdWalk i c) (hs : slotOK n = true) :
    OkSpec (inspectChildren i (some n)) (some n)
      ((children n).flatMap bracket) := by
  cases n with
  | comment text =>
    exact fun st => ⟨st, rfl⟩
  | commentGroup list =>
    simp only [slotOK, Bool.and_eq_true] at hs
    simp only [inspectChildren, inspectIdentList, inspectExprList,
      inspectStmtList, inspectDeclList]
    refine okCongr
      (bindOk (inspectNodeListOk (fun c hc => hi c (by simp [children, hc])) hs)
      (pureOk _))
      rfl (by simp [children, List.flatMap_append, List.append_assoc])
  | field doc names type_ tag comm =>
    simp only [slotOK, Bool.and_eq_true] at hs
    simp only [inspectChildren, inspectIdentList, inspectExprList,
      inspectStmtList, inspectDeclList]
    refine okCongr
      (bindOk (inspectOptionalOk (fun d hd => hi d (by simp [children, hd])) hs.1.1.1.1)
      (bindOk (inspectNodeListOk (fun c hc => hi c (by simp [children, hc])) hs.1.1.1.2)
      (bindOk (inspectSlotOk (hi type_ (by simp [children])) hs.1.1.2)
      (bindOk (inspectOptionalOk (fun d hd => hi d (by simp [children, hd])) hs.1.2)
      (bindOk (inspectOptionalOk (fun d hd => hi d (by simp [children, hd])) hs.2)
      (pureOk _))))))
      rfl (by simp [children, List.flatMap_append, List.append_assoc])
  | fieldList list =>
    simp only [slotOK, Bool.and_eq_true] at hs
    simp only [inspectChildren, inspectIdentList, inspectExprList,
      inspectStmtList, inspectDeclList]
    refine okCongr
      (bindOk (inspectNodeListOk (fun c hc => hi c (by simp [children, hc])) hs)
      (pureOk _))
      rfl (by simp [children, List.flatMap_append, List.append_assoc])
  | badExpr =>
    exact fun st => ⟨st, rfl⟩
  | ident name =>
    exact fun st => ⟨st, rfl⟩
  | basicLit value =>
    exact fun st => ⟨st, rfl⟩
  | ellipsis elt =>
    simp only [slotOK, Bool.and_eq_true] at hs
    simp only [inspectChildren, inspectIdentList, inspectExprList,
      inspectStmtList, inspectDeclList]
    refine okCongr
      (bindOk (inspectOptionalOk (fun d hd => hi d (by simp [children, hd])) hs)
      (pureOk _))
      rfl (by simp [children, List.flatMap_append, List.append_assoc])
  | funcLit ftype body =>
    simp only [slotOK, Bool.and_eq_true] at hs
    simp only [inspectChildren, inspectIdentList, inspectExprList,
      inspectStmtList, inspectDeclList]
    refine okCongr
      (bindOk (inspectSlotOk (hi ftype (by simp [children])) hs.1)
      (bindOk (inspectSlotOk (hi body (by simp [children])) hs.2)
      (pureOk _)))
      rfl (by simp [children, List.flatMap_append, List.append_assoc])
  | compositeLit ctype elts =>
    simp only [slotOK, Bool.and_eq_true] at hs
    simp only [inspectChildren, inspectIdentList, inspectExprList,
      inspectStmtList, inspectDeclList]
    refine okCongr
      (bindOk (inspectOptionalOk (fun d hd => hi d (by simp [children, hd])) hs.1)
      (bindOk (inspectNodeListOk (fun c hc => hi c (by simp [children, hc])) hs.2)
      (pureOk _)))
      rfl (by simp [children, List.flatMap_append, List.append_assoc])
  | parenExpr x =>
    simp only [slotOK, Bool.and_eq_true] at hs
    simp only [inspectChildren, inspectIdentList, inspectExprList,
      inspectStmtList, inspectDeclList]
    refine okCongr
      (bindOk (inspectSlotOk (hi x (by simp [children])) hs)
      (pureOk _))
      rfl (by simp [children, List.flatMap_append, List.append_assoc])
  | selectorExpr x sel =>
    simp only [slotOK, Bool.and_eq_true] at hs
    simp only [inspectChildren, inspectIdentList, inspectExprList,
      inspectStmtList, inspectDeclList]
    refine okCongr
      (bindOk (inspectSlotOk (hi x (by simp [children])) hs.1)
      (bindOk (inspectSlotOk (hi sel (by simp [children])) hs.2)
      (pureOk _)))
      rfl (by simp [children, List.flatMap_append, List.append_assoc])
  | indexExpr x index =>
    simp only [slotOK, Bool.and_eq_true] at hs
    simp only [inspectChildren, inspectIdentList, inspectExprList,
      inspectStmtList, inspectDeclList]
    refine okCongr
      (bindOk (inspectSlotOk (hi x (by simp [children])) hs.1)
      (bindOk (inspectSlotOk (hi index (by simp [children])) hs.2)
      (pureOk _)))
      rfl (by simp [children, List.flatMap_append, List.append_assoc])
  | sliceExpr x low high max =>
    simp only [slotOK, Bool.and_eq_true] at hs
    simp only [inspectChildren, inspectIdentList, inspectExprList,
      inspectStmtList, inspectDeclList]
    refine okCongr
      (bindOk (inspectSlotOk (hi x (by simp [children])) hs.1.1.1)
      (bindOk (inspectOptionalOk (fun d hd => hi d (by simp [children, hd])) hs.1.1.2)
      (bindOk (inspectOptionalOk (fun d hd => hi d (by simp [children, hd])) hs.1.2)
      (bindOk (inspectOptionalOk (fun d hd => hi d (by simp [children, hd])) hs.2)
      (pureOk _)))))
      rfl (by simp [children, List.flatMap_append, List.append_assoc])
  | typeAssertExpr x ttype =>
    simp only [slotOK, Bool.and_eq_true] at hs
    simp only [inspectChildren, inspectIdentList, inspectExprList,
      inspectStmtList, inspectDeclList]
    refine okCongr
      (bindOk (inspectSlotOk (hi x (by simp [children])) hs.1)
      (bindOk (inspectOptionalOk (fun d hd => hi d (by simp [children, hd])) hs.2)
      (pureOk _)))
      rfl (by simp [children, List.flatMap_append, List.append_assoc])
  | callExpr func args =>
    simp only [slotOK, Bool.and_eq_true] at hs
    simp only [inspectChildren, inspectIdentList, inspectExprList,
      inspectStmtList, inspectDeclList]
    refine okCongr
      (bindOk (inspectSlotOk (hi func (by simp [children])) hs.1)
      (bindOk (inspectNodeListOk (fun c hc => hi c (by simp [children, hc])) hs.2)
      (pureOk _)))
      rfl (by simp [children, List.flatMap_append, List.append_assoc])
  | starExpr x =>
    simp only [slotOK, Bool.and_eq_true] at hs
    simp only [inspectChildren, inspectIdentList, inspectExprList,
      inspectStmtList, inspectDeclList]
    refine okCongr
      (bindOk (inspectSlotOk (hi x (by simp [children])) hs)
      (pureOk _))
      rfl (by simp [children, List.flatMap_append, List.append_assoc])
  | unaryExpr x =>
    simp only [slotOK, Bool.and_eq_true] at hs
    simp only [inspectChildren, inspectIdentList, inspectExprList,
      inspectStmtList, inspectDeclList]
    refine okCongr
      (bindOk (inspectSlotOk (hi x (by simp [children])) hs)
      (pureOk _))
      rfl (by simp [children, List.flatMap_append, List.append_assoc])
  | binaryExpr x y =>
    simp only [slotOK, Bool.and_eq_true] at hs
    simp only [inspectChildren, inspectIdentList, inspectExprList,
      inspectStmtList, inspectDeclList]
    refine okCongr
      (bindOk (inspectSlotOk (hi x (by simp [children])) hs.1)
      (bindOk (inspectSlotOk (hi y (by simp [children])) hs.2)
      (pureOk _)))
      rfl (by simp [children, List.flatMap_append, List.append_assoc])
  | keyValueExpr key value =>
    simp only [slotOK, Bool.and_eq_true] at hs
    simp only [inspectChildren, inspectIdentList, inspectExprList,
      inspectStmtList, inspectDeclList]
    refine okCongr
      (bindOk (inspectSlotOk (hi key (by simp [children])) hs.1)
      (bindOk (inspectSlotOk (hi value (by simp [children])) hs.2)
      (pureOk _)))
      rfl (by simp [children, List.flatMap_append, List.append_assoc])
  | arrayType len elt =>
    simp only [slotOK, Bool.and_eq_true] at hs
    simp only [inspectChildren, inspectIdentList, inspectExprList,
      inspectStmtList, inspectDeclList]
    refine okCongr
      (bindOk (inspectOptionalOk (fun d hd => hi d (by simp [children, hd])) hs.1)
      (bindOk (inspectSlotOk (hi elt (by simp [children])) hs.2)
      (pureOk _)))
      rfl (by simp [children, List.flatMap_append, List.append_assoc])
  | structType fields =>
    simp only [slotOK, Bool.and_eq_true] at hs
    simp only [inspectChildren, inspectIdentList, inspectExprList,
      inspectStmtList, inspectDeclList]
    refine okCongr
      (bindOk (inspectSlotOk (hi fields (by simp [children])) hs)
      (pureOk _))
      rfl (by simp [children, List.flatMap_append, List.append_assoc])
  | funcType params results =>
    simp only [slotOK, Bool.and_eq_true] at hs
    simp only [inspectChildren, inspectIdentList, inspectExprList,
      inspectStmtList, inspectDeclList]
    refine okCongr
      (bindOk (inspectOptionalOk (fun d hd => hi d (by simp [children, hd])) hs.1)
      (bindOk (inspectOptionalOk (fun d hd => hi d (by simp [children, hd])) hs.2)
      (pureOk _)))
      rfl (by simp [children, List.flatMap_append, List.append_assoc])
  | interfaceType methods =>
    simp only [slotOK, Bool.and_eq_true] at hs
    simp only [inspectChildren, inspectIdentList, inspectExprList,
      inspectStmtList, inspectDeclList]
    refine okCongr
      (bindOk (inspectSlotOk (hi methods (by simp [children])) hs)
      (pureOk _))
      rfl (by simp [children, List.flatMap_append, List.append_assoc])
  | mapType key value =>
    simp only [slotOK, Bool.and_eq_true] at hs
    simp only [inspectChildren, inspectIdentList, inspectExprList,
      inspectStmtList, inspectDeclList]
    refine okCongr
      (bindOk (inspectSlotOk (hi key (by simp [children])) hs.1)
      (bindOk (inspectSlotOk (hi value (by simp [children])) hs.2)
      (pureOk _)))
      rfl (by simp [children, List.flatMap_append, List.append_assoc])
  | chanType value =>
    simp only [slotOK, Bool.and_eq_true] at hs
    simp only [inspectChildren, inspectIdentList, inspectExprList,
      inspectStmtList, inspectDeclList]
    refine okCongr
      (bindOk (inspectSlotOk (hi value (by simp [children])) hs)
      (pureOk _))
      rfl (by simp [children, List.flatMap_append, List.append_assoc])
  | badStmt =>
    exact fun st => ⟨st, rfl⟩
  | declStmt decl =>
    simp only [slotOK, Bool.and_eq_true] at hs
    simp only [inspectChildren, inspectIdentList, inspectExprList,
      inspectStmtList, inspectDeclList]
    refine okCongr
      (bindOk (inspectSlotOk (hi decl (by simp [children])) hs)
      (pureOk _))
      rfl (by simp [children, List.flatMap_append, List.append_assoc])
  | emptyStmt =>
    exact fun st => ⟨st, rfl⟩
  | labeledStmt label stmt =>
    simp only [slotOK, Bool.and_eq_true] at hs
    simp only [inspectChildren, inspectIdentList, inspectExprList,
      inspectStmtList, inspectDeclList]
    refine okCongr
      (bindOk (inspectSlotOk (hi label (by simp [children])) hs.1)
      (bindOk (inspectSlotOk (hi stmt (by simp [children])) hs.2)
      (pureOk _)))
      rfl (by simp [children, List.flatMap_append, List.append_assoc])
  | exprStmt x =>
    simp only [slotOK, Bool.and_eq_true] at hs
    simp only [inspectChildren, inspectIdentList, inspectExprList,
      inspectStmtList, inspectDeclList]
    refine okCongr
      (bindOk (inspectSlotOk (hi x (by simp [children])) hs)
      (pureOk _))
      rfl (by simp [children, List.flatMap_append, List.append_assoc])
  | sendStmt chan_ value =>
    simp only [slotOK, Bool.and_eq_true] at hs
    simp only [inspectChildren, inspectIdentList, inspectExprList,
      inspectStmtList, inspectDeclList]
    refine okCongr
      (bindOk (inspectSlotOk (hi chan_ (by simp [children])) hs.1)
      (bindOk (inspectSlotOk (hi value (by simp [children])) hs.2)
      (pureOk _)))
      rfl (by simp [children, List.flatMap_append, List.append_assoc])
  | incDecStmt x =>
    simp only [slotOK, Bool.and_eq_true] at hs
    simp only [inspectChildren, inspectIdentList, inspectExprList,
      inspectStmtList, inspectDeclList]
    refine okCongr
      (bindOk (inspectSlotOk (hi x (by simp [children])) hs)
      (pureOk _))
      rfl (by simp [children, List.flatMap_append, List.append_assoc])
  | assignStmt lhs rhs =>
    simp only [slotOK, Bool.and_eq_true] at hs
    simp only [inspectChildren, inspectIdentList, inspectExprList,
      inspectStmtList, inspectDeclList]
    refine okCongr
      (bindOk (inspectNodeListOk (fun c hc => hi c (by simp [children, hc])) hs.1)
      (bindOk (inspectNodeListOk (fun c hc => hi c (by simp [children, hc])) hs.2)
      (pureOk _)))
      rfl (by simp [children, List.flatMap_append, List.append_assoc])
  | goStmt call =>
    simp only [slotOK, Bool.and_eq_true] at hs
    simp only [inspectChildren, inspectIdentList, inspectExprList,
      inspectStmtList, inspectDeclList]
    refine okCongr
      (bindOk (inspectSlotOk (hi call (by simp [children])) hs)
      (pureOk _))
      rfl (by simp [children, List.flatMap_append, List.append_assoc])
  | deferStmt call =>
    simp only [slotOK, Bool.and_eq_true] at hs
    simp only [inspectChildren, inspectIdentList, inspectExprList,
      inspectStmtList, inspectDeclList]
    refine okCongr
      (bindOk (inspectSlotOk (hi call (by simp [children])) hs)
      (pureOk _))
      rfl (by simp [children, List.flatMap_append, List.append_assoc])
  | returnStmt results =>
    simp only [slotOK, Bool.and_eq_true] at hs
    simp only [inspectChildren, inspectIdentList, inspectExprList,
      inspectStmtList, inspectDeclList]
    refine okCongr
      (bindOk (inspectNodeListOk (fun c hc => hi c (by simp [children, hc])) hs)
      (pureOk _))
      rfl (by simp [children, List.flatMap_append, List.append_assoc])
  | branchStmt label =>
    simp only [slotOK, Bool.and_eq_true] at hs
    simp only [inspectChildren, inspectIdentList, inspectExprList,
      inspectStmtList, inspectDeclList]
    refine okCongr
      (bindOk (inspectOptionalOk (fun d hd => hi d (by simp [children, hd])) hs)
      (pureOk _))
      rfl (by simp [children, List.flatMap_append, List.append_assoc])
  | blockStmt list =>
    simp only [slotOK, Bool.and_eq_true] at hs
    simp only [inspectChildren, inspectIdentList, inspectExprList,
      inspectStmtList, inspectDeclList]
    refine okCongr
      (bindOk (inspectNodeListOk (fun c hc => hi c (by simp [children, hc])) hs)
      (pureOk _))
      rfl (by simp [children, List.flatMap_append, List.append_assoc])
  | ifStmt init cond body else_ =>
    simp only [slotOK, Bool.and_eq_true] at hs
    simp only [inspectChildren, inspectIdentList, inspectExprList,
      inspectStmtList, inspectDeclList]
    refine okCongr
      (bindOk (inspectOptionalOk (fun d hd => hi d (by simp [children, hd])) hs.1.1.1)
      (bindOk (inspectSlotOk (hi cond (by simp [children])) hs.1.1.2)
      (bindOk (inspectSlotOk (hi body (by simp [children])) hs.1.2)
      (bindOk (inspectOptionalOk (fun d hd => hi d (by simp [children, hd])) hs.2)
      (pureOk _)))))
      rfl (by simp [children, List.flatMap_append, List.append_assoc])
  | caseClause list body =>
    simp only [slotOK, Bool.and_eq_true] at hs
    simp only [inspectChildren, inspectIdentList, inspectExprList,
      inspectStmtList, inspectDeclList]
    refine okCongr
      (bindOk (inspectNodeListOk (fun c hc => hi c (by simp [children, hc])) hs.1)
      (bindOk (inspectNodeListOk (fun c hc => hi c (by simp [children, hc])) hs.2)
      (pureOk _)))
      rfl (by simp [children, List.flatMap_append, List.append_assoc])
  | switchStmt init tag body =>
    simp only [slotOK, Bool.and_eq_true] at hs
    simp only [inspectChildren, inspectIdentList, inspectExprList,
      inspectStmtList, inspectDeclList]
    refine okCongr
      (bindOk (inspectOptionalOk (fun d hd => hi d (by simp [children, hd])) hs.1.1)
      (bindOk (inspectOptionalOk (fun d hd => hi d (by simp [children, hd])) hs.1.2)
      (bindOk (inspectSlotOk (hi body (by simp [children])) hs.2)
      (pureOk _))))
      rfl (by simp [children, List.flatMap_append, List.append_assoc])
  | typeSwitchStmt init assign body =>
    simp only [slotOK, Bool.and_eq_true] at hs
    simp only [inspectChildren, inspectIdentList, inspectExprList,
      inspectStmtList, inspectDeclList]
    refine okCongr
      (bindOk (inspectOptionalOk (fun d hd => hi d (by simp [children, hd])) hs.1.1)
      (bindOk (inspectSlotOk (hi assign (by simp [children])) hs.1.2)
      (bindOk (inspectSlotOk (hi body (by simp [children])) hs.2)
      (pureOk _))))
      rfl (by simp [children, List.flatMap_append, List.append_assoc])
  | commClause comm body =>
    simp only [slotOK, Bool.and_eq_true] at hs
    simp only [inspectChildren, inspectIdentList, inspectExprList,
      inspectStmtList, inspectDeclList]
    refine okCongr
      (bindOk (inspectOptionalOk (fun d hd => hi d (by simp [children, hd])) hs.1)
      (bindOk (inspectNodeListOk (fun c hc => hi c (by simp [children, hc])) hs.2)
      (pureOk _)))
      rfl (by simp [children, List.flatMap_append, List.append_assoc])
  | selectStmt body =>
    simp only [slotOK, Bool.and_eq_true] at hs
    simp only [inspectChildren, inspectIdentList, inspectExprList,
      inspectStmtList, inspectDeclList]
    refine okCongr
      (bindOk (inspectSlotOk (hi body (by simp [children])) hs)
      (pureOk _))
      rfl (by simp [children, List.flatMap_append, List.append_assoc])
  | forStmt init cond post body =>
    simp only [slotOK, Bool.and_eq_true] at hs
    simp only [inspectChildren, inspectIdentList, inspectExprList,
      inspectStmtList, inspectDeclList]
    refine okCongr
      (bindOk (inspectOptionalOk (fun d hd => hi d (by simp [children, hd])) hs.1.1.1)
      (bindOk (inspectOptionalOk (fun d hd => hi d (by simp [children, hd])) hs.1.1.2)
      (bindOk (inspectOptionalOk (fun d hd => hi d (by simp [children, hd])) hs.1.2)
      (bindOk (inspectSlotOk (hi body (by simp [children])) hs.2)
      (pureOk _)))))
      rfl (by simp [children, List.flatMap_append, List.append_assoc])
  | rangeStmt key value x body =>
    simp only [slotOK, Bool.and_eq_true] at hs
    simp only [inspectChildren, inspectIdentList, inspectExprList,
      inspectStmtList, inspectDeclList]
    refine okCongr
      (bindOk (inspectOptionalOk (fun d hd => hi d (by simp [children, hd])) hs.1.1.1)
      (bindOk (inspectOptionalOk (fun d hd => hi d (by simp [children, hd])) hs.1.1.2)
      (bindOk (inspectSlotOk (hi x (by simp [children])) hs.1.2)
      (bindOk (inspectSlotOk (hi body (by simp [children])) hs.2)
      (pureOk _)))))
      rfl (by simp [children, List.flatMap_append, List.append_assoc])
  | importSpec doc name path comm =>
    simp only [slotOK, Bool.and_eq_true] at hs
    simp only [inspectChildren, inspectIdentList, inspectExprList,
      inspectStmtList, inspectDeclList]
    refine okCongr
      (bindOk (inspectOptionalOk (fun d hd => hi d (by simp [children, hd])) hs.1.1.1)
      (bindOk (inspectOptionalOk (fun d hd => hi d (by simp [children, hd])) hs.1.1.2)
      (bindOk (inspectSlotOk (hi path (by simp [children])) hs.1.2)
      (bindOk (inspectOptionalOk (fun d hd => hi d (by simp [children, hd])) hs.2)
      (pureOk _)))))
      rfl (by simp [children, List.flatMap_append, List.append_assoc])
  | valueSpec doc names vtype values comm =>
    simp only [slotOK, Bool.and_eq_true] at hs
    simp only [inspectChildren, inspectIdentList, inspectExprList,
      inspectStmtList, inspectDeclList]
    refine okCongr
      (bindOk (inspectOptionalOk (fun d hd => hi d (by simp [children, hd])) hs.1.1.1.1)
      (bindOk (inspectNodeListOk (fun c hc => hi c (by simp [children, hc])) hs.1.1.1.2)
      (bindOk (inspectOptionalOk (fun d hd => hi d (by simp [children, hd])) hs.1.1.2)
      (bindOk (inspectNodeListOk (fun c hc => hi c (by simp [children, hc])) hs.1.2)
      (bindOk (inspectOptionalOk (fun d hd => hi d (by simp [children, hd])) hs.2)
      (pureOk _))))))
      rfl (by simp [children, List.flatMap_append, List.append_assoc])
  | typeSpec doc name ttype comm =>
    simp only [slotOK, Bool.and_eq_true] at hs
    simp only [inspectChildren, inspectIdentList, inspectExprList,
      inspectStmtList, inspectDeclList]
    refine okCongr
      (bindOk (inspectOptionalOk (fun d hd => hi d (by simp [children, hd])) hs.1.1.1)
      (bindOk (inspectSlotOk (hi name (by simp [children])) hs.1.1.2)
      (bindOk (inspectSlotOk (hi ttype (by simp [children])) hs.1.2)
      (bindOk (inspectOptionalOk (fun d hd => hi d (by simp [children, hd])) hs.2)
      (pureOk _)))))
      rfl (by simp [children, List.flatMap_append, List.append_assoc])
  | badDecl =>
    exact fun st => ⟨st, rfl⟩
  | genDecl doc specs =>
    simp only [slotOK, Bool.and_eq_true] at hs
    simp only [inspectChildren, inspectIdentList, inspectExprList,
      inspectStmtList, inspectDeclList]
    refine okCongr
      (bindOk (inspectOptionalOk (fun d hd => hi d (by simp [children, hd])) hs.1)
      (bindOk (inspectNodeListOk (fun c hc => hi c (by simp [children, hc])) hs.2)
      (pureOk _)))
      rfl (by simp [children, List.flatMap_append, List.append_assoc])
  | funcDecl doc recv name ftype body =>
    simp only [slotOK, Bool.and_eq_true] at hs
    simp only [inspectChildren, inspectIdentList, inspectExprList,
      inspectStmtList, inspectDeclList]
    refine okCongr
      (bindOk (inspectOptionalOk (fun d hd => hi d (by simp [children, hd])) hs.1.1.1.1)
      (bindOk (inspectOptionalOk (fun d hd => hi d (by simp [children, hd])) hs.1.1.1.2)
      (bindOk (inspectSlotOk (hi name (by simp [children])) hs.1.1.2)
      (bindOk (inspectSlotOk (hi ftype (by simp [children])) hs.1.2)
      (bindOk (inspectOptionalOk (fun d hd => hi d (by simp [children, hd])) hs.2)
      (pureOk _))))))
      rfl (by simp [children, List.flatMap_append, List.append_assoc])
  | file doc name decls comments =>
    simp only [slotOK, Bool.and_eq_true] at hs
    simp only [inspectChildren, inspectIdentList, inspectExprList,
      inspectStmtList, inspectDeclList]
    refine okCongr
      (bindOk (inspectOptionalOk (fun d hd => hi d (by simp [children, hd])) hs.1.1)
      (bindOk (inspectSlotOk (hi name (by simp [children])) hs.1.2)
      (bindOk (inspectNodeListOk (fun c hc => hi c (by simp [children, hc])) hs.2)
      (pureOk _))))
      rfl (by simp [children, List.flatMap_append, List.append_assoc])
  | package_ files =>
    simp only [slotOK, Bool.and_eq_true] at hs
    simp only [inspectChildren, inspectIdentList, inspectExprList,
      inspectStmtList, inspectDeclList]
    refine okCongr
      (bindOk (inspectNodeListOk (fun c hc => hi c (by simp [children, hc])) hs)
      (pureOk _))
      rfl (by simp [children, List.flatMap_append, List.append_assoc])

/-- A visitor that always returns true (continue) and never calls Replace:
whatever its internal state does, the cursor it leaves equals the node it was
presented and the recurse flag is true. -/
def NoReplaceContinue (v : Visitor σ) : Prop :=
  ∀ s m, ∃ s', v s m = (s', m, true)

theorem VisitOk {v : Visitor σ} (hv : NoReplaceContinue v) (m : Option Node) :
    OkSpec (Visit v m) (m, true) [(m, true)] := by
  intro st
  obtain ⟨s', hs⟩ := hv st.vs m
  exact ⟨⟨none, s'⟩, by simp [Visit, hs]⟩

/-- Master run of the engine under an always-continue, never-replacing
visitor: on a well-typed tree, with fuel at least the tree size, Inspect
succeeds, returns the tree unchanged, and the visitor receives exactly the
bracketed pre-order/closing call sequence of the tree. -/
theorem Inspect_noReplace {v : Visitor σ} (hv : NoReplaceContinue v) :
    ∀ (fuel : Nat) (n : Node), wf n = true → nsize n ≤ fuel →
      OkSpec (Inspect v fuel (some n)) (some n) (bracket n) := by
  intro fuel
  induction fuel with
  | zero =>
    intro n _ h
    have := nsize_pos n
    omega
  | succ f ih =>
    intro n hwf hf
    have hchild : ∀ c ∈ children n, IdWalk (fun c' => Inspect v f (some c')) c := by
      intro c hc
      have hlt := nsize_lt_of_mem_children hc
      exact ih c (wf_child hwf hc) (by omega)
    simp only [Inspect]
    refine okCongr
      (bindOk (VisitOk hv (some n))
        (bindOk (inspectChildrenOk hchild (wf_slotOK hwf))
          (bindOk (VisitOk hv none) (pureOk _))))
      rfl ?_
    rw [bracket_eq]
    simp

theorem bracketF_filterMap : ∀ (f : Nat) (n : Node), nsize n ≤ f →
    (bracketF f n).filterMap Prod.fst = docOrderF f n := by
  intro f
  induction f with
  | zero =>
    intro n h
    have := nsize_pos n
    omega
  | succ f ih =>
    intro n hf
    have hinner : ∀ (l : List Node), (∀ c ∈ l, nsize c ≤ f) →
        (l.flatMap (bracketF f)).filterMap Prod.fst = l.flatMap (docOrderF f) := by
      intro l
      induction l with
      | nil => intro _; rfl
      | cons x xs ih2 =>
        intro hl
        simp only [List.flatMap_cons, List.filterMap_append]
        rw [ih x (hl x (by simp)), ih2 (fun c hc => hl c (by simp [hc]))]
    have hch : ∀ c ∈ children n, nsize c ≤ f := by
      intro c hc
      have := nsize_lt_of_mem_children hc
      omega
    simp only [bracketF, docOrderF, List.filterMap_cons, List.filterMap_append,
      List.cons.injEq, true_and]
    rw [hinner (children n) hch]
    simp

/-- The pre-order entries of the bracketed call log, in order, are exactly
the document-order node listing. -/
theorem bracket_filterMap (n : Node) :
    (bracket n).filterMap Prod.fst = docOrder n :=
  bracketF_filterMap (nsize n) n le_rfl

/-- The visitor that does nothing: never replaces and always continues. -/
def trivialVisitor : Visitor Unit := fun s m => (s, m, true)

/-- A sample well-typed file tree: doc comment group, package name, one
function declaration, and the file-level comment collection holding the same
comment group that is attached as the doc (as the parser produces). -/
def sampleFile : Node :=
  .file (some (.commentGroup [.comment "doc"])) (.ident "main")
    [.funcDecl none none (.ident "Widget")
      (.funcType (some (.fieldList [])) none)
      (some (.blockStmt [.exprStmt (.callExpr (.ident "f") [.basicLit "1"])]))]
    [.commentGroup [.comment "doc"]]

/-- Claim C4: traversing any well-typed tree with a visitor that always
returns true (continue) and never calls Replace returns a tree structurally
identical (deep equality) to the input tree. -/
theorem claim4_identity {σ : Type} {v : Visitor σ} (hv : NoReplaceContinue v)
    (n : Node) (hwf : wf n = true) (fuel : Nat) (hf : nsize n ≤ fuel)
    (st : St σ) :
    ∃ st' tr, Inspect v fuel (some n) st = .ok (some n) st' tr := by
  obtain ⟨st', h⟩ := Inspect_noReplace hv fuel n hwf hf st
  exact ⟨st', bracket n, h⟩

/-- Witness for C4 at a concrete tree and the trivial visitor. -/
theorem claim4_identity_witness :
    NoReplaceContinue trivialVisitor ∧ wf sampleFile = true ∧
      nsize sampleFile ≤ 32 ∧
      ∃ st' tr, Inspect trivialVisitor 32 (some sampleFile) ⟨none, ()⟩ =
        .ok (some sampleFile) st' tr :=
  ⟨fun s m => ⟨s, rfl⟩, by decide, by decide,
    claim4_identity (fun s m => ⟨s, rfl⟩) sampleFile (by decide) 32 (by decide)
      ⟨none, ()⟩⟩

/-- Claim C2: under an always-continue, never-replacing visitor, the
sequence of nodes receiving pre-order calls (the some-node entries of the
call log, closing calls excluded) is exactly the document-order listing of
the nodes reachable from the root via declared child slots - each occurrence
visited exactly once, depth-first left-to-right; since `children` of a file
omits the Comments collection (as the dispatch switch does), comment groups
are listed only where they are attached and never a second time at the file
level. -/
theorem claim2_coverage {σ : Type} {v : Visitor σ} (hv : NoReplaceContinue v)
    (n : Node) (hwf : wf n = true) (fuel : Nat) (hf : nsize n ≤ fuel)
    (st : St σ) :
    ∃ st' tr, Inspect v fuel (some n) st = .ok (some n) st' tr ∧
      tr.filterMap Prod.fst = docOrder n := by
  obtain ⟨st', h⟩ := Inspect_noReplace hv fuel n hwf hf st
  exact ⟨st', bracket n, h, bracket_filterMap n⟩

/-- Witness for C2 at a concrete tree and the trivial visitor. -/
theorem claim2_coverage_witness :
    NoReplaceContinue trivialVisitor ∧ wf sampleFile = true ∧
      nsize sampleFile ≤ 32 ∧
      ∃ st' tr, Inspect trivialVisitor 32 (some sampleFile) ⟨none, ()⟩ =
        .ok (some sampleFile) st' tr ∧
        tr.filterMap Prod.fst = docOrder sampleFile :=
  ⟨fun s m => ⟨s, rfl⟩, by decide, by decide,
    claim2_coverage (fun s m => ⟨s, rfl⟩) sampleFile (by decide) 32 (by decide)
      ⟨none, ()⟩⟩

/-- Full characterization of one inspectorImpl.Visit call: the callback is
applied to the presented node (the cursor set just before the call), the
returned pair is (cursor at callback return, recurse flag), the cursor of the
post-state is cleared (nil), and the call is logged. -/
theorem Visit_run (v : Visitor σ) (m : Option Node) (st : St σ) :
    Visit v m st = .ok ((v st.vs m).2.1, (v st.vs m).2.2)
      ⟨none, (v st.vs m).1⟩ [(m, (v st.vs m).2.2)] := rfl

/-- Claim C3: for every visitor and node, if the pre-order call returns false
(stop), the engine returns the replacement at once and the call log holds the
single pre-order event with no closing call; if it returns true (continue)
and the child walk completes with log tr₂, the engine issues exactly one
closing call (nil node) after the children's events and returns the child
walk's result. -/
theorem claim3_closing {σ : Type} (v : Visitor σ) (fuel : Nat) (n : Node)
    (st : St σ) :
    ((v st.vs (some n)).2.2 = false →
      Inspect v (fuel + 1) (some n) st =
        .ok (v st.vs (some n)).2.1 ⟨none, (v st.vs (some n)).1⟩
          [(some n, false)]) ∧
    ((v st.vs (some n)).2.2 = true →
      ∀ r st₂ tr₂,
        inspectChildren (fun c => Inspect v fuel (some c))
            (v st.vs (some n)).2.1 ⟨none, (v st.vs (some n)).1⟩ =
          .ok r st₂ tr₂ →
        Inspect v (fuel + 1) (some n) st =
          .ok r ⟨none, (v st₂.vs none).1⟩
            ((some n, true) :: (tr₂ ++ [(none, (v st₂.vs none).2.2)]))) := by
  constructor
  · intro hfalse
    simp [Inspect, M.bind_eq, M.bind, Visit_run, hfalse, M.pure_eq, M.pure]
  · intro htrue r st₂ tr₂ hrun
    simp [Inspect, M.bind_eq, M.bind, Visit_run, htrue, hrun, M.pure_eq, M.pure]

/-- Witness for C3 at the trivial visitor on a leaf node: the child walk of
an identifier is empty, so the log is the pre-order call followed directly by
the closing call. -/
theorem claim3_closing_witness :
    Inspect trivialVisitor 2 (some (.ident "x")) ⟨none, ()⟩ =
      .ok (some (.ident "x")) ⟨none, ()⟩
        [(some (.ident "x"), true), (none, true)] := by
  have h := (claim3_closing trivialVisitor 1 (.ident "x") ⟨none, ()⟩).2 rfl
    (some (.ident "x")) ⟨none, ()⟩ [] rfl
  simpa using h

/-- Claim C5: if the visitor answers the pre-order call for node A with stop
(false) and no replacement, the traversal of A returns immediately: the
output subtree is exactly the input subtree A (all descendants untouched),
and the call log is the single pre-order event for A - no descendant receives
any call, and no closing call is issued. -/
theorem claim5_skip {σ : Type} (v : Visitor σ) (A : Node) (st : St σ) (s' : σ)
    (h : v st.vs (some A) = (s', some A, false)) (fuel : Nat) :
    Inspect v (fuel + 1) (some A) st = .ok (some A) ⟨none, s'⟩
      [(some A, false)] := by
  simp [Inspect, M.bind_eq, M.bind, Visit_run, h, M.pure_eq, M.pure]

/-- The visitor that stops everywhere and never replaces. -/
def stopVisitor : Visitor Unit := fun s m => (s, m, false)

/-- Witness for C5: stopping at a binary expression leaves its operands
unvisited and unmodified. -/
theorem claim5_skip_witness :
    Inspect stopVisitor 4 (some (.binaryExpr (.ident "a") (.ident "b")))
        ⟨none, ()⟩ =
      .ok (some (.binaryExpr (.ident "a") (.ident "b"))) ⟨none, ()⟩
        [(some (.binaryExpr (.ident "a") (.ident "b")), false)] :=
  claim5_skip stopVisitor (.binaryExpr (.ident "a") (.ident "b")) ⟨none, ()⟩
    () rfl 3

/-- Claim C6: during every callback invocation the inspector cursor holds
exactly the node passed for that invocation (so Current() returns it, and the
closing call presents nil), and the cursor is cleared (nil) when Visit
returns; consequently the state in which any successful Inspect run finishes
has an empty cursor - no stale node survives between callback invocations. -/
theorem claim6_cursor {σ : Type} :
    (∀ (v : Visitor σ) (m : Option Node) (st : St σ),
        Visit v m st = .ok ((v st.vs m).2.1, (v st.vs m).2.2)
          ⟨none, (v st.vs m).1⟩ [(m, (v st.vs m).2.2)]) ∧
    (∀ (v : Visitor σ) (fuel : Nat) (m : Option Node) (st : St σ) r st' tr,
        Inspect v fuel m st = .ok r st' tr → st'.node = none) := by
  constructor
  · exact Visit_run
  · intro v fuel m st r st' tr h
    cases fuel with
    | zero => exact absurd h (by simp [Inspect])
    | succ f =>
      simp only [Inspect, M.bind_eq, M.bind, Visit_run] at h
      cases hb : (v st.vs m).2.2 with
      | false =>
        simp only [hb, Bool.false_eq_true, if_false, M.pure_eq, M.pure] at h
        simp only [Res.ok.injEq] at h
        rw [← h.2.1]
      | true =>
        rcases hic : inspectChildren (fun c => Inspect v f (some c))
            (v st.vs m).2.1 ⟨none, (v st.vs m).1⟩ with ⟨a2, st₂, t2⟩ | ⟨e, t2⟩
        · simp only [hb, if_true, hic, M.bind_eq, M.bind, Visit_run,
            M.pure_eq, M.pure] at h
          simp only [Res.ok.injEq] at h
          rw [← h.2.1]
        · simp [hb, hic, M.bind_eq, M.bind] at h

/-- Witness for C6: a concrete successful run finishing with a cleared
cursor, even though the traversal started with a node in the cursor. -/
theorem claim6_cursor_witness :
    Inspect trivialVisitor 2 (some (.ident "x")) ⟨some (.ident "y"), ()⟩ =
      .ok (some (.ident "x")) ⟨none, ()⟩
        [(some (.ident "x"), true), (none, true)] ∧
    (⟨none, ()⟩ : St Unit).node = none := by
  constructor
  · rfl
  · exact claim6_cursor.2 trivialVisitor 2 (some (.ident "x"))
      ⟨some (.ident "y"), ()⟩ (some (.ident "x")) ⟨none, ()⟩
      [(some (.ident "x"), true), (none, true)] rfl

/-- Claim C7: calling Replace during a closing call has no effect: two
visitors that agree on all pre-order calls and whose closing-call behaviour
differs only in the replacement they install (same state evolution, same
recurse flag) drive the traversal to identical results - node, final state
and call log. -/
theorem claim7_closing_replace {σ : Type} (v v' : Visitor σ)
    (hsome : ∀ s c, v s (some c) = v' s (some c))
    (hnone : ∀ s, (v s none).1 = (v' s none).1 ∧
      (v s none).2.2 = (v' s none).2.2) :
    ∀ (fuel : Nat) (n : Node) (st : St σ),
      Inspect v fuel (some n) st = Inspect v' fuel (some n) st := by
  intro fuel
  induction fuel with
  | zero => intro n st; rfl
  | succ f ih =>
    intro n st
    have hfun : (fun c => Inspect v f (some c)) =
        (fun c => Inspect v' f (some c)) :=
      funext fun c => funext fun st0 => ih c st0
    simp only [Inspect, M.bind_eq, M.bind, Visit_run, hsome st.vs n, hfun]
    cases hb : (v' st.vs (some n)).2.2 with
    | false => simp [hb]
    | true =>
      rcases hic : inspectChildren (fun c => Inspect v' f (some c))
          (v' st.vs (some n)).2.1 ⟨none, (v' st.vs (some n)).1⟩ with
        ⟨a2, st₂, t2⟩ | ⟨e, t2⟩
      · obtain ⟨h1, h2⟩ := hnone st₂.vs
        simp [hb, hic, M.bind_eq, M.bind, Visit_run, h1, h2, M.pure_eq, M.pure]
      · simp [hb, hic, M.bind_eq, M.bind]

/-- A visitor like the trivial one except that it calls Replace during every
closing call. -/
def closingReplacer : Visitor Unit := fun s m =>
  match m with
  | none => (s, some (.ident "stale"), true)
  | some c => (s, some c, true)

/-- Witness for C7: replacing during closing calls yields the same traversal
as never replacing. -/
theorem claim7_closing_replace_witness :
    Inspect closingReplacer 2 (some (.ident "x")) ⟨none, ()⟩ =
      Inspect trivialVisitor 2 (some (.ident "x")) ⟨none, ()⟩ :=
  claim7_closing_replace closingReplacer trivialVisitor (fun _ _ => rfl)
    (fun _ => ⟨rfl, rfl⟩) 2 (.ident "x") ⟨none, ()⟩

/-- Claim C10: a nil root is not a supported input: the visitor receives a
pre-order call carrying nil (the same argument shape as a closing call), and
when it returns true without installing a replacement, the nil node reaches
the dispatch switch's default case and the traversal panics. -/
theorem claim10_nil_input {σ : Type} (v : Visitor σ) (st : St σ) (s' : σ)
    (h : v st.vs none = (s', none, true)) (fuel : Nat) :
    Inspect v (fuel + 1) none st = .err .unknownVariant [(none, true)] := by
  simp [Inspect, M.bind_eq, M.bind, Visit_run, h, inspectChildren]

/-- Witness for C10: the trivial visitor on a nil root panics after one
call. -/
theorem claim10_nil_input_witness :
    Inspect trivialVisitor 3 none ⟨none, ()⟩ =
      .err .unknownVariant [(none, true)] :=
  claim10_nil_input trivialVisitor ⟨none, ()⟩ () rfl 2

/-- Slot-wise behaviour of the list helpers' shared body: a successful run
preserves the length, and each output slot k is the type-asserted result of
the recursive inspection of input slot k (run from the state reached after
the earlier slots). -/
theorem inspectNodeList_slots {p : Node → Bool} {i : Node → M σ (Option Node)} :
    ∀ {l l' : List Node} {st st' : St σ} {tr : List Event},
      inspectNodeList p i l st = .ok l' st' tr →
      l'.length = l.length ∧
        ∀ (k : Nat) (hk : k < l.length) (hk' : k < l'.length),
          ∃ st₁ st₂ t,
            inspectSlot p i (l.get ⟨k, hk⟩) st₁ =
              .ok (l'.get ⟨k, hk'⟩) st₂ t := by
  intro l
  induction l with
  | nil =>
    intro l' st st' tr h
    simp only [inspectNodeList, M.pure] at h
    simp only [Res.ok.injEq] at h
    refine ⟨by rw [← h.1], ?_⟩
    intro k hk
    exact absurd hk (by simp)
  | cons x xs ih =>
    intro l' st st' tr h
    simp only [inspectNodeList, M.bind_eq, M.bind] at h
    rcases hx : inspectSlot p i x st with ⟨x', st₁, t1⟩ | ⟨e, t1⟩
    · simp only [hx] at h
      rcases hxs : inspectNodeList p i xs st₁ with ⟨xs', st₂, t2⟩ | ⟨e, t2⟩
      · simp only [hxs, M.pure_eq, M.pure, Res.ok.injEq] at h
        obtain ⟨hl', -, -⟩ := h
        obtain ⟨hlen, hslots⟩ := ih hxs
        subst hl'
        refine ⟨by simp [hlen], ?_⟩
        intro k hk hk'
        cases k with
        | zero => exact ⟨st, st₁, t1, hx⟩
        | succ k0 =>
          exact hslots k0 (by simpa using hk) (by simpa using hk')
      · simp [hxs] at h
    · simp [hx] at h

/-- Claim C1: if, during the pre-order call for the node occupying slot k of
a parent's child list, the visitor installs a replacement B via Replace (and
returns stop, so B's subtree is not re-walked) and B is slot-compatible (an
expression, for an expression list), then whenever the parent's child-list
walk completes, slot k of the rebuilt list holds exactly B - even when B is
of a different grammar variant than the node it replaces. -/
theorem claim1_replacement {σ : Type} (v : Visitor σ) (a b : Node)
    (hb : isExpr b = true)
    (hrepl : ∀ s, ∃ s', v s (some a) = (s', some b, false))
    (fuel : Nat) (l : List Node) (k : Nat) (hk : k < l.length)
    (ha : l.get ⟨k, hk⟩ = a) (st st' : St σ) (l' : List Node)
    (tr : List Event)
    (hrun : inspectExprList (fun c => Inspect v fuel (some c)) l st =
      .ok l' st' tr) :
    ∃ hk' : k < l'.length, l'.get ⟨k, hk'⟩ = b := by
  have hs := inspectNodeList_slots (by simpa [inspectExprList] using hrun)
  have hk' : k < l'.length := by rw [hs.1]; exact hk
  obtain ⟨st₁, st₂, t, hslot⟩ := hs.2 k hk hk'
  rw [ha] at hslot
  refine ⟨hk', ?_⟩
  cases fuel with
  | zero =>
    have hslot0 : (Res.err .outOfFuel [] : Res σ Node) =
        Res.ok (l'.get ⟨k, hk'⟩) st₂ t := hslot
    exact Res.noConfusion hslot0
  | succ f =>
    obtain ⟨s', hv⟩ := hrepl st₁.vs
    have hslot1 : inspectSlot isExpr (fun c => Inspect v (f + 1) (some c)) a
        st₁ = Res.ok (l'.get ⟨k, hk'⟩) st₂ t := hslot
    have hcomp : inspectSlot isExpr (fun c => Inspect v (f + 1) (some c)) a
        st₁ = Res.ok b ⟨none, s'⟩ [(some a, false)] := by
      unfold inspectSlot
      simp [M.bind_eq, M.bind, Inspect, Visit_run, hv, typeAssert, hb,
        M.pure_eq, M.pure]
    rw [hcomp] at hslot1
    injection hslot1 with h1 h2 h3
    exact h1.symm

/-- A visitor that replaces every pointer-dereference (star) expression with
the qualified name pkg.InterfaceName and stops there, continuing everywhere
else - the visitor of the repository's pointer-to-interface test. -/
def replacerVisitor : Visitor Unit := fun s m =>
  match m with
  | some (.starExpr _) =>
      (s, some (.selectorExpr (.ident "pkg") (.ident "InterfaceName")), false)
  | _ => (s, m, true)

/-- Witness for C1: in a two-element expression list, slot 1 (a star
expression) is replaced by a selector expression - a different grammar
variant - and the completed list walk holds the replacement at slot 1. -/
theorem claim1_replacement_witness :
    ∃ hk' : 1 < ([Node.ident "k0",
        Node.selectorExpr (.ident "pkg") (.ident "InterfaceName")] :
          List Node).length,
      ([Node.ident "k0",
        Node.selectorExpr (.ident "pkg") (.ident "InterfaceName")] :
          List Node).get ⟨1, hk'⟩ =
        Node.selectorExpr (.ident "pkg") (.ident "InterfaceName") :=
  claim1_replacement replacerVisitor (.starExpr (.ident "T"))
    (.selectorExpr (.ident "pkg") (.ident "InterfaceName")) rfl
    (fun s => ⟨s, rfl⟩) 3
    [Node.ident "k0", Node.starExpr (.ident "T")] 1 (by decide) rfl
    ⟨none, ()⟩ ⟨none, ()⟩
    [Node.ident "k0", Node.selectorExpr (.ident "pkg") (.ident "InterfaceName")]
    [(some (Node.ident "k0"), true), (none, true),
      (some (Node.starExpr (.ident "T")), false)] rfl

/-- Claim C9: each of the four child-list helpers preserves the length of its
input list and fills every output slot k with the type-asserted result of
recursively inspecting input slot k: no element is reordered, inserted or
deleted. -/
theorem claim9_list_helpers {σ : Type} :
    (∀ (i : Node → M σ (Option Node)) l l' st st' tr,
        inspectIdentList i l st = .ok l' st' tr →
        l'.length = l.length ∧
          ∀ (k : Nat) (hk : k < l.length) (hk' : k < l'.length),
            ∃ st₁ st₂ t, inspectSlot isIdent i (l.get ⟨k, hk⟩) st₁ =
              .ok (l'.get ⟨k, hk'⟩) st₂ t) ∧
    (∀ (i : Node → M σ (Option Node)) l l' st st' tr,
        inspectExprList i l st = .ok l' st' tr →
        l'.length = l.length ∧
          ∀ (k : Nat) (hk : k < l.length) (hk' : k < l'.length),
            ∃ st₁ st₂ t, inspectSlot isExpr i (l.get ⟨k, hk⟩) st₁ =
              .ok (l'.get ⟨k, hk'⟩) st₂ t) ∧
    (∀ (i : Node → M σ (Option Node)) l l' st st' tr,
        inspectStmtList i l st = .ok l' st' tr →
        l'.length = l.length ∧
          ∀ (k : Nat) (hk : k < l.length) (hk' : k < l'.length),
            ∃ st₁ st₂ t, inspectSlot isStmt i (l.get ⟨k, hk⟩) st₁ =
              .ok (l'.get ⟨k, hk'⟩) st₂ t) ∧
    (∀ (i : Node → M σ (Option Node)) l l' st st' tr,
        inspectDeclList i l st = .ok l' st' tr →
        l'.length = l.length ∧
          ∀ (k : Nat) (hk : k < l.length) (hk' : k < l'.length),
            ∃ st₁ st₂ t, inspectSlot isDecl i (l.get ⟨k, hk⟩) st₁ =
              .ok (l'.get ⟨k, hk'⟩) st₂ t) := by
  refine ⟨?_, ?_, ?_, ?_⟩ <;>
    exact fun i l l' st st' tr h =>
      inspectNodeList_slots (by simpa [inspectIdentList, inspectExprList,
        inspectStmtList, inspectDeclList] using h)

/-- Witness for C9 on a one-element identifier list walked by a pure
identity inspection. -/
theorem claim9_list_helpers_witness :
    ([Node.ident "x"] : List Node).length =
        ([Node.ident "x"] : List Node).length ∧
      ∀ (k : Nat) (hk : k < ([Node.ident "x"] : List Node).length)
        (hk' : k < ([Node.ident "x"] : List Node).length),
        ∃ st₁ st₂ t,
          inspectSlot isIdent (fun c => (M.pure (some c) : M Unit (Option Node)))
              (([Node.ident "x"] : List Node).get ⟨k, hk⟩) st₁ =
            .ok (([Node.ident "x"] : List Node).get ⟨k, hk'⟩) st₂ t :=
  claim9_list_helpers.1 (fun c => M.pure (some c)) [Node.ident "x"]
    [Node.ident "x"] ⟨none, ()⟩ ⟨none, ()⟩ [] rfl

/-- Claim C8: a value outside the enumerated grammar variants reaching the
dispatch switch (in this closed model, the nil node) hits the default case
and panics fatally instead of being skipped; for well-typed trees made only
of the enumerated variants the traversal (under a benign visitor) never takes
that fatal branch - it completes normally. -/
theorem claim8_unknown_variant {σ : Type} :
    (∀ (i : Node → M σ (Option Node)) (st : St σ),
        inspectChildren i none st = .err .unknownVariant []) ∧
    (∀ (v : Visitor σ), NoReplaceContinue v → ∀ (n : Node), wf n = true →
        ∀ (fuel : Nat), nsize n ≤ fuel → ∀ st, ∃ st',
          Inspect v fuel (some n) st = .ok (some n) st' (bracket n)) := by
  constructor
  · intro i st
    rfl
  · intro v hv n hwf fuel hf st
    exact Inspect_noReplace hv fuel n hwf hf st

/-- Witness for C8: the default case panics on nil, and a concrete
well-typed tree traverses without reaching it. -/
theorem claim8_unknown_variant_witness :
    (inspectChildren (fun c => (M.pure (some c) : M Unit (Option Node))) none
        ⟨none, ()⟩ = .err .unknownVariant []) ∧
      ∃ st', Inspect trivialVisitor 32 (some sampleFile) ⟨none, ()⟩ =
        .ok (some sampleFile) st' (bracket sampleFile) :=
  ⟨claim8_unknown_variant.1 (fun c => M.pure (some c)) ⟨none, ()⟩,
    claim8_unknown_variant.2 trivialVisitor (fun s m => ⟨s, rfl⟩) sampleFile
      (by decide) 32 (by decide) ⟨none, ()⟩⟩
